import Mathlib

/-!
Shallow embedding of the pattern-matching engine of `src/match.ts`
(the `matches` condition evaluator, the `matchChained` ordered-branch
dispatcher, the `matchMapped` keyed-variant dispatcher, the
`matchDispatch` router, `match`, `compile`, the `Default`/`_` sentinel
and the `Fn` wrapper), together with theorems settling the frozen
claims about it.

Modelling conventions, fixed once here:

* JavaScript values are modelled by the inductive `JVal`.  Primitives
  are identified by a numeric code; strict equality (`===`) between
  primitives, and reference identity between functions and between
  container instances, are both modelled by structural equality of
  `JVal` (two distinct JS objects that happen to be structurally equal
  never behave differently from one object in any code path of the
  engine, because the engine's `===` shortcut and its structural
  descent agree on structurally equal values).
* `prim 0` stands for a falsy primitive (such as `0`, `""` or `false`);
  every other primitive code stands for a truthy primitive.  `null` is
  not modelled separately from `undefined` (`undef`): the engine only
  ever asks whether a value is object-like or truthy, and both answers
  agree for the two.
* A plain function is `fn i` where `i` is its identity; the behaviour
  of calling it is given by an environment `Env` mapping the id and the
  single argument to the returned value (JS calls with no argument pass
  `undefined`).  Truthiness of the returned value models the truthy
  check done on predicate results.
* `Fn(f)` from `match.ts` is `fnWrapped i`: a callable carrying the
  wrapped function (id `i`) as its `MarkFn` payload; calling the
  wrapper itself throws the "wrapped function called" error.
* `wildcard` is the frozen `Default` / `_` sentinel: a function whose
  call throws the "exhausted" error.
* `opt tag v` is an `OptionType` instance with `[T] = tag` and
  `[Val] = v` (`Some x = opt true x`, `None = opt false undef`);
  `res tag v` is a `ResultType` instance (`Ok x = res true x`,
  `Err e = res false e`).  `Option.is` / `Result.is` are `instanceof`
  checks and `isLike` compares the `[T]` tags, exactly as in
  `option.ts` / `result.ts`.  Container instances carry no string-keyed
  own properties (their internals live behind symbols, and prototype
  methods are not own properties), so string-key lookup on them is
  absent.
* Every evaluator returns, besides its result, the trace of ids of the
  plain functions it invoked, in invocation order.  This instruments
  the embedding so that "this function is never invoked" claims become
  provable statements about the trace.
-/

namespace Oxide

/-- JavaScript values, restricted to the shapes the engine inspects. -/
inductive JVal where
  | undef
  | prim (code : Nat)
  | wildcard
  | fn (id : Nat)
  | fnWrapped (id : Nat)
  | obj (fields : List (String × JVal))
  | arr (elems : List JVal)
  | opt (tag : Bool) (v : JVal)
  | res (tag : Bool) (v : JVal)
deriving Repr

mutual

/-- Structural (boolean) equality on `JVal`; this models JavaScript
`===` as explained above. -/
def beqJ : JVal → JVal → Bool
  | .undef, .undef => true
  | .prim x, .prim y => x == y
  | .wildcard, .wildcard => true
  | .fn x, .fn y => x == y
  | .fnWrapped x, .fnWrapped y => x == y
  | .obj fs, .obj gs => beqFieldsJ fs gs
  | .arr xs, .arr ys => beqElemsJ xs ys
  | .opt t v, .opt t' v' => t == t' && beqJ v v'
  | .res t v, .res t' v' => t == t' && beqJ v v'
  | _, _ => false

/-- Structural equality on field lists. -/
def beqFieldsJ : List (String × JVal) → List (String × JVal) → Bool
  | [], [] => true
  | (k, v) :: fs', (k', v') :: gs' =>
    k == k' && beqJ v v' && beqFieldsJ fs' gs'
  | _, _ => false

/-- Structural equality on element lists. -/
def beqElemsJ : List JVal → List JVal → Bool
  | [], [] => true
  | x :: xs', y :: ys' => beqJ x y && beqElemsJ xs' ys'
  | _, _ => false

end

theorem beqJ_iff :
    ∀ n, (∀ a b : JVal, sizeOf a ≤ n → (beqJ a b = true ↔ a = b)) ∧
      (∀ fs gs : List (String × JVal), sizeOf fs ≤ n →
        (beqFieldsJ fs gs = true ↔ fs = gs)) ∧
      (∀ xs ys : List JVal, sizeOf xs ≤ n →
        (beqElemsJ xs ys = true ↔ xs = ys)) := by
  intro n
  induction n with
  | zero =>
    refine ⟨fun a b h => ?_, fun fs gs h => ?_, fun xs ys h => ?_⟩
    · cases a <;> simp at h
    · cases fs <;> simp at h
    · cases xs <;> simp at h
  | succ n ih =>
    obtain ⟨ihv, ihf, ihl⟩ := ih
    refine ⟨fun a b h => ?_, fun fs gs h => ?_, fun xs ys h => ?_⟩
    · cases a <;> cases b <;>
        first
        | (simp [beqJ]; done)
        | skip
      case obj.obj fs gs =>
        have hs : sizeOf fs ≤ n := by simp at h; omega
        simp [beqJ, ihf fs gs hs]
      case arr.arr xs ys =>
        have hs : sizeOf xs ≤ n := by simp at h; omega
        simp [beqJ, ihl xs ys hs]
      case opt.opt t v t' v' =>
        have hs : sizeOf v ≤ n := by simp at h; omega
        simp [beqJ, ihv v v' hs]
      case res.res t v t' v' =>
        have hs : sizeOf v ≤ n := by simp at h; omega
        simp [beqJ, ihv v v' hs]
    · cases fs with
      | nil => cases gs <;> simp [beqFieldsJ]
      | cons p fs' =>
        obtain ⟨k, v⟩ := p
        cases gs with
        | nil => simp [beqFieldsJ]
        | cons q gs' =>
          obtain ⟨k', v'⟩ := q
          have hv : sizeOf v ≤ n := by simp at h; omega
          have hf : sizeOf fs' ≤ n := by simp at h; omega
          simp [beqFieldsJ, ihv v v' hv, ihf fs' gs' hf]
          try tauto
    · cases xs with
      | nil => cases ys <;> simp [beqElemsJ]
      | cons x xs' =>
        cases ys with
        | nil => simp [beqElemsJ]
        | cons y ys' =>
          have hv : sizeOf x ≤ n := by simp at h; omega
          have hl : sizeOf xs' ≤ n := by simp at h; omega
          simp [beqElemsJ, ihv x y hv, ihl xs' ys' hl]
          try tauto

instance : DecidableEq JVal := fun a b =>
  decidable_of_iff (beqJ a b = true) ((beqJ_iff (sizeOf a)).1 a b le_rfl)

/-- Behaviour of plain functions: maps a function id and the call
argument to the returned value. -/
def Env : Type := Nat → JVal → JVal

/-- The three errors thrown by `match.ts`, plus the `TypeError` JS
itself raises when a chained-pattern entry that is neither a function
nor an array is destructured (or a non-function is called); the latter
cannot occur on well-typed patterns. -/
inductive MErr where
  | exhausted
  | invalidPattern
  | fnCalled
  | typeErr
deriving DecidableEq, Repr

/-- Result of a dispatch: the outcome (value or error) paired with the
trace of plain-function ids invoked along the way. -/
abbrev DRes := Except MErr JVal × List Nat

/-- Prefix a trace onto a dispatch result. -/
def withTrace (t : List Nat) (r : DRes) : DRes := (r.1, t ++ r.2)

namespace JVal

/-- JS truthiness of the modelled values (`prim 0` is the falsy
primitive representative; objects, arrays, containers and functions
are always truthy). -/
def truthy : JVal → Bool
  | .undef => false
  | .prim c => c != 0
  | _ => true

/-- `isObjectLike` from `match.ts`: `value !== null && typeof value
=== "object"`.  Functions are not object-like. -/
def isObjectLike : JVal → Bool
  | .obj _ | .arr _ | .opt _ _ | .res _ _ => true
  | _ => false

/-- `Array.isArray`. -/
def isArrayJ : JVal → Bool
  | .arr _ => true
  | _ => false

/-- `typeof v === "function"`: plain functions, `Fn` wrappers and the
`Default` sentinel are all functions at runtime. -/
def isFunctionJ : JVal → Bool
  | .fn _ | .fnWrapped _ | .wildcard => true
  | _ => false

/-- `Option.is(v) || Result.is(v)`: instanceof one of the two
container classes. -/
def isContainer : JVal → Bool
  | .opt _ _ | .res _ _ => true
  | _ => false

end JVal

/-- First-match association-list lookup of a string key (JS objects
hold each key once; lookup of an own property). -/
def lookupField : List (String × JVal) → String → Option JVal
  | [], _ => none
  | (k, v) :: rest, key => if k = key then some v else lookupField rest key

namespace JVal

/-- `key in val` for the string keys the engine consults (containers
and arrays carry no string-keyed own properties relevant here). -/
def hasKey : JVal → String → Bool
  | .obj fields, k => (lookupField fields k).isSome
  | _, _ => false

/-- `val[key]` for string keys (`undefined` when absent). -/
def getKey : JVal → String → JVal
  | .obj fields, k => (lookupField fields k).getD .undef
  | _, _ => .undef

end JVal

/-- The `Fn` wrapper from `match.ts`: wraps the function with id `i`
so it is treated as a value (its `MarkFn` payload). -/
def Fn (i : Nat) : JVal := .fnWrapped i

/-- Calling a JS value with one argument: plain functions consult the
environment (and are recorded in the trace), the `Default` sentinel
throws "exhausted", an `Fn` wrapper throws "wrapped function called",
and calling a non-function is a `TypeError` (unreachable on the paths
the engine takes, which always check `typeof` first). -/
def callJ1 (f arg : JVal) (env : Env) : DRes :=
  match f with
  | .fn i => (.ok (env i arg), [i])
  | .fnWrapped _ => (.error .fnCalled, [])
  | .wildcard => (.error .exhausted, [])
  | _ => (.error .typeErr, [])

/-- Calling a JS value with no arguments (JS passes `undefined`). -/
def callJ0 (f : JVal) (env : Env) : DRes := callJ1 f .undef env

mutual

/-- The condition evaluator `matches(cond, val, evaluate)` of
`match.ts` (lines 453-491), instrumented with the trace of invoked
predicate ids.  The source first runs the shortcut
`if (cond === Default || cond === val) return true` and only then
inspects `cond`; the per-constructor equations below realize the same
check order by performing the identity test in every arm (the
`wildcard` arm is the `cond === Default` case).  Then come the function
cases (`MarkFn` payload identity for `Fn` wrappers, predicate call
gated by `evaluate` for plain functions), then object-like conditions
(container conditions via `T in cond` with `isLike` plus recursive
matching of the `[Val]` payloads with `evaluate` forced off, then the
partial object/array descent), and otherwise no match. -/
def matchesM : JVal → JVal → Bool → Env → Bool × List Nat
  | .wildcard, _, _, _ => (true, [])
  | .fnWrapped i, val, _, _ =>
    if JVal.fnWrapped i = val then (true, [])
    else (val == .fn i, [])
  | .fn i, val, evaluate, env =>
    if JVal.fn i = val then (true, [])
    else if evaluate then ((env i val).truthy, [i]) else (false, [])
  | .opt t c, val, _, env =>
    if JVal.opt t c = val then (true, [])
    else
      match val with
      | .opt t' v => if t = t' then matchesM c v false env else (false, [])
      | _ => (false, [])
  | .res t c, val, _, env =>
    if JVal.res t c = val then (true, [])
    else
      match val with
      | .res t' v => if t = t' then matchesM c v false env else (false, [])
      | _ => (false, [])
  | .obj fields, val, evaluate, env =>
    if JVal.obj fields = val then (true, [])
    else if val.isObjectLike && !val.isArrayJ then
      matchesFields fields val evaluate env
    else (false, [])
  | .arr cs, val, evaluate, env =>
    if JVal.arr cs = val then (true, [])
    else
      match val with
      | .arr vs => matchesElems cs vs evaluate env
      | _ => (false, [])
  | .undef, val, _, _ => (decide (JVal.undef = val), [])
  | .prim c, val, _, _ => (decide (JVal.prim c = val), [])

/-- The `for (const key of Object.keys(cond))` descent of `matches`
over an object condition's fields: every key must be present in the
candidate and match recursively, short-circuiting on the first
failure. -/
def matchesFields : List (String × JVal) → JVal → Bool → Env →
    Bool × List Nat
  | [], _, _, _ => (true, [])
  | (k, c) :: rest, val, evaluate, env =>
    if val.hasKey k then
      let r := matchesM c (val.getKey k) evaluate env
      if r.1 then
        let r2 := matchesFields rest val evaluate env
        (r2.1, r.2 ++ r2.2)
      else (false, r.2)
    else (false, [])

/-- The same descent for an array condition against an array candidate:
every index of the condition must exist in the candidate and match. -/
def matchesElems : List JVal → List JVal → Bool → Env → Bool × List Nat
  | [], _, _, _ => (true, [])
  | _ :: _, [], _, _ => (false, [])
  | c :: cs', v :: vs', evaluate, env =>
    let r := matchesM c v evaluate env
    if r.1 then
      let r2 := matchesElems cs' vs' evaluate env
      (r2.1, r.2 ++ r2.2)
    else (false, r.2)

end

/-- Evaluating the `result` of a matched branch (lines 439-445 of
`match.ts`): a function result returns its `MarkFn` payload if
`Fn`-wrapped and is otherwise called with the candidate (the sentinel
in result position is a payload-free function, so it is called and
throws "exhausted"); a non-function result is returned literally. -/
def evalBranchResult (result val : JVal) (env : Env) : DRes :=
  match result with
  | .fnWrapped i => (.ok (.fn i), [])
  | .fn i => (.ok (env i val), [i])
  | .wildcard => (.error .exhausted, [])
  | r => (.ok r, [])

/-- `matchChained(val, pattern, defaultBranch)` (lines 426-451): walk
the entries in order.  A function entry returns its `MarkFn` payload if
`Fn`-wrapped and otherwise the result of calling it with no arguments;
a `[cond, result]` pair is tested with `matches(cond, val, true)` and,
on success, its result is evaluated; JS destructuring of an entry that
is neither a function nor an array throws a `TypeError` (strings and
container instances are iterable in JS, but such entries are outside
the pattern type and no claim depends on them).  After the loop the
default branch is called with no arguments. -/
def matchChained : JVal → List JVal → JVal → Env → DRes
  | _, [], d, env => callJ0 d env
  | _, .fnWrapped i :: _, _, _ => (.ok (.fn i), [])
  | _, .fn i :: _, _, env => callJ0 (.fn i) env
  | _, .wildcard :: _, _, env => callJ0 .wildcard env
  | val, .arr l :: rest, d, env =>
    let cond := l.head?.getD .undef
    let result := (l.drop 1).head?.getD .undef
    let m := matchesM cond val true env
    if m.1 then withTrace m.2 (evalBranchResult result val env)
    else withTrace m.2 (matchChained val rest d env)
  | _, _ :: _, _, _ => (.error .typeErr, [])

/-- The default forwarded by `matchMapped` into a nested dispatch:
`typeof pattern._ === "function" ? pattern._ : defaultBranch`
(lines 399 and 415). -/
def mappedInherit (fields : List (String × JVal)) (d : JVal) : JVal :=
  let pU := (lookupField fields "_").getD .undef
  if pU.isFunctionJ then pU else d

/-- The final fall-through of `matchMapped` (line 423):
`typeof pattern._ === "function" ? pattern._() : defaultBranch()`. -/
def mappedFallthrough (fields : List (String × JVal)) (d : JVal)
    (env : Env) : DRes :=
  let pU := (lookupField fields "_").getD .undef
  if pU.isFunctionJ then callJ0 pU env else callJ0 d env

theorem sizeOf_lookupField_lt (fields : List (String × JVal))
    (k : String) :
    sizeOf ((lookupField fields k).getD JVal.undef) < 1 + sizeOf fields := by
  induction fields with
  | nil => simp [lookupField]
  | cons p rest ih =>
    obtain ⟨k', v⟩ := p
    simp only [lookupField]
    split
    · simp
      omega
    · simp only [List.cons.sizeOf_spec, Prod.mk.sizeOf_spec]
      omega

mutual

/-- `matchMapped(val, pattern, defaultBranch)` (lines 385-424) for an
object pattern with the given fields.  For `Some(x)` candidates the
`Some` arm is consulted (truthiness test, then `typeof function`); a
non-function truthy arm is dispatched recursively against the unwrapped
value with the inherited default; for `None` the `None` arm must be a
function; `Ok`/`Err` candidates use the corresponding arm; any
non-container candidate throws "invalid pattern"; otherwise control
falls through to `pattern._` or the inherited default. -/
def matchMapped : JVal → List (String × JVal) → JVal → Env → DRes
  | .opt true v, fields, d, env =>
    let pSome := (lookupField fields "Some").getD .undef
    if pSome.truthy then
      if pSome.isFunctionJ then callJ1 pSome v env
      else matchDispatch v pSome (mappedInherit fields d) env
    else mappedFallthrough fields d env
  | .opt false _, fields, d, env =>
    let pNone := (lookupField fields "None").getD .undef
    if pNone.isFunctionJ then callJ0 pNone env
    else mappedFallthrough fields d env
  | .res true v, fields, d, env =>
    let pB := (lookupField fields "Ok").getD .undef
    if pB.truthy then
      if pB.isFunctionJ then callJ1 pB v env
      else matchDispatch v pB (mappedInherit fields d) env
    else mappedFallthrough fields d env
  | .res false v, fields, d, env =>
    let pB := (lookupField fields "Err").getD .undef
    if pB.truthy then
      if pB.isFunctionJ then callJ1 pB v env
      else matchDispatch v pB (mappedInherit fields d) env
    else mappedFallthrough fields d env
  | _, _, _, _ => (.error .invalidPattern, [])
termination_by _ fields _ _ => 2 * sizeOf fields + 1
decreasing_by
  · have := sizeOf_lookupField_lt fields "Some"
    omega
  · have := sizeOf_lookupField_lt fields "Ok"
    omega
  · have := sizeOf_lookupField_lt fields "Err"
    omega

/-- `matchDispatch(val, pattern, defaultBranch)` (lines 493-505):
arrays go to the chained dispatcher, object-like patterns to the mapped
dispatcher, anything else throws "invalid pattern".  A container
instance used as the pattern is object-like but carries no string-keyed
own properties (its internals live behind symbols), so `matchMapped`
sees exactly the arms of an empty record. -/
def matchDispatch : JVal → JVal → JVal → Env → DRes
  | val, .arr entries, d, env => matchChained val entries d env
  | val, .obj fields, d, env => matchMapped val fields d env
  | val, .opt _ _, d, env => matchMapped val [] d env
  | val, .res _ _, d, env => matchMapped val [] d env
  | _, _, _, _ => (.error .invalidPattern, [])
termination_by _ patt _ _ => 2 * sizeOf patt
decreasing_by
  all_goals simp
  all_goals omega

end

/-- `match(val, pattern)` (lines 284-289): dispatch with the `Default`
sentinel installed as the outermost default branch. -/
def matchJ (val patt : JVal) (env : Env) : DRes :=
  matchDispatch val patt .wildcard env

/-- `compile(pattern)` (lines 343-356): the closure
`(val) => match(val, pattern)`. -/
def compile (patt : JVal) (env : Env) : JVal → DRes :=
  fun val => matchJ val patt env

/-- The `cond === val` shortcut of `matches`: a condition always
matches itself, without invoking anything. -/
theorem matchesM_refl (c : JVal) (ev : Bool) (env : Env) :
    matchesM c c ev env = (true, []) := by
  cases c <;> simp [matchesM]

/-- With predicate evaluation disabled, the condition evaluator never
invokes any function (empty trace) and its outcome does not depend on
the behaviour of any function (environment irrelevance). -/
theorem matchesM_noEval :
    ∀ n, (∀ (c v : JVal) (env env2 : Env), sizeOf c ≤ n →
        matchesM c v false env = matchesM c v false env2 ∧
          (matchesM c v false env).2 = []) ∧
      (∀ (fs : List (String × JVal)) (v : JVal) (env env2 : Env),
        sizeOf fs ≤ n →
        matchesFields fs v false env = matchesFields fs v false env2 ∧
          (matchesFields fs v false env).2 = []) ∧
      (∀ (cs vs : List JVal) (env env2 : Env), sizeOf cs ≤ n →
        matchesElems cs vs false env = matchesElems cs vs false env2 ∧
          (matchesElems cs vs false env).2 = []) := by
  intro n
  induction n with
  | zero =>
    refine ⟨fun c v env env2 h => ?_, fun fs v env env2 h => ?_,
      fun cs vs env env2 h => ?_⟩
    · cases c <;> simp at h
    · cases fs <;> simp at h
    · cases cs <;> simp at h
  | succ n ih =>
    obtain ⟨ihv, ihf, ihl⟩ := ih
    refine ⟨fun c v env env2 h => ?_, fun fs v env env2 h => ?_,
      fun cs vs env env2 h => ?_⟩
    · cases c with
      | undef => simp [matchesM]
      | prim code => simp [matchesM]
      | wildcard => simp [matchesM]
      | fn i =>
        simp only [matchesM]
        refine ⟨by simp, ?_⟩
        split <;> simp
      | fnWrapped i =>
        simp only [matchesM]
        refine ⟨by simp, ?_⟩
        split <;> simp
      | obj fs =>
        have hs : sizeOf fs ≤ n := by simp at h; omega
        simp only [matchesM]
        split
        · simp
        · split
          · exact ihf fs v env env2 hs
          · simp
      | arr cs =>
        have hs : sizeOf cs ≤ n := by simp at h; omega
        simp only [matchesM]
        split
        · simp
        · cases v <;> simp
          exact ihl cs _ env env2 hs
      | opt t c =>
        have hs : sizeOf c ≤ n := by simp at h; omega
        simp only [matchesM]
        split
        · simp
        · cases v <;> simp
          split
          · exact ihv c _ env env2 hs
          · simp
      | res t c =>
        have hs : sizeOf c ≤ n := by simp at h; omega
        simp only [matchesM]
        split
        · simp
        · cases v <;> simp
          split
          · exact ihv c _ env env2 hs
          · simp
    · cases fs with
      | nil => simp [matchesFields]
      | cons p rest =>
        obtain ⟨k, c⟩ := p
        have hc : sizeOf c ≤ n := by simp at h; omega
        have hr : sizeOf rest ≤ n := by simp at h; omega
        obtain ⟨hv1, hv2⟩ := ihv c (v.getKey k) env env2 hc
        obtain ⟨hf1, hf2⟩ := ihf rest v env env2 hr
        simp only [matchesFields]
        split
        · rw [hv1, hf1]
          refine ⟨rfl, ?_⟩
          rw [← hv1, ← hf1]
          split
          · simp [hv2, hf2]
          · simp [hv2]
        · simp
    · cases cs with
      | nil => simp [matchesElems]
      | cons c rest =>
        cases vs with
        | nil => simp [matchesElems]
        | cons w ws =>
          have hc : sizeOf c ≤ n := by simp at h; omega
          have hr : sizeOf rest ≤ n := by simp at h; omega
          obtain ⟨hv1, hv2⟩ := ihv c w env env2 hc
          obtain ⟨hl1, hl2⟩ := ihl rest ws env env2 hr
          simp only [matchesElems]
          rw [hv1, hl1]
          refine ⟨rfl, ?_⟩
          rw [← hv1, ← hl1]
          split
          · simp [hv2, hl2]
          · simp [hv2]

/-- Claim C8: `matches(Wildcard, x, evaluate)` returns true for every
candidate `x` (including `undefined`) and for either value of the
predicate-evaluation flag, and the wildcard placed inside a
container-variant condition, a nested object condition or a nested
array condition still matches any value at that position; nothing is
ever invoked. -/
theorem c8_wildcard_universal (x : JVal) (ev : Bool) (env : Env)
    (t : Bool) (k : String) :
    matchesM .wildcard x ev env = (true, []) ∧
    matchesM (.opt t .wildcard) (.opt t x) ev env = (true, []) ∧
    matchesM (.res t .wildcard) (.res t x) ev env = (true, []) ∧
    matchesM (.obj [(k, .wildcard)]) (.obj [(k, x)]) ev env = (true, []) ∧
    matchesM (.arr [.wildcard]) (.arr [x]) ev env = (true, []) := by
  refine ⟨by simp [matchesM], ?_, ?_, ?_, ?_⟩
  · simp only [matchesM]
    split
    · rfl
    · simp [matchesM]
  · simp only [matchesM]
    split
    · rfl
    · simp [matchesM]
  · simp only [matchesM]
    split
    · rfl
    · simp [matchesFields, matchesM, JVal.hasKey, JVal.getKey,
        lookupField, JVal.isObjectLike, JVal.isArrayJ]
  · simp only [matchesM]
    split
    · rfl
    · simp [matchesElems, matchesM]

/-- Claim C1: a condition that is a container instance matches a
candidate exactly when the candidate shares the container's
discriminant and the wrapped condition matches the candidate's wrapped
value with predicate evaluation disabled.  In particular, with
`Some(predicateFn)` as the condition and `Some(5)` as the candidate the
match fails and the predicate is not invoked (empty trace), also when
the function is `Fn`-wrapped; an `Fn`-wrapped function succeeds exactly
when the candidate's wrapped value is the identical function. -/
theorem c1_container_condition (t : Bool) (c val : JVal) (ev : Bool)
    (env : Env) (p : Nat) :
    ((matchesM (.opt t c) val ev env).1 = true ↔
      ∃ v, val = .opt t v ∧ (matchesM c v false env).1 = true) ∧
    ((matchesM (.res t c) val ev env).1 = true ↔
      ∃ v, val = .res t v ∧ (matchesM c v false env).1 = true) ∧
    matchesM (.opt true (.fn p)) (.opt true (.prim 5)) ev env
      = (false, []) ∧
    matchesM (.opt true (.fnWrapped p)) (.opt true (.prim 5)) ev env
      = (false, []) ∧
    matchesM (.opt true (.fnWrapped p)) (.opt true (.fn p)) ev env
      = (true, []) := by
  refine ⟨?_, ?_, ?_, ?_, ?_⟩
  · by_cases h : JVal.opt t c = val
    · subst h
      rw [matchesM_refl]
      simp only [true_iff]
      exact ⟨c, rfl, by rw [matchesM_refl]⟩
    · simp only [matchesM, if_neg h]
      cases val with
      | opt t' v =>
        by_cases ht : t = t'
        · subst ht
          simp
        · simp [ht]
          intro h'
          exact absurd h'.symm ht
      | _ => simp
  · by_cases h : JVal.res t c = val
    · subst h
      rw [matchesM_refl]
      simp only [true_iff]
      exact ⟨c, rfl, by rw [matchesM_refl]⟩
    · simp only [matchesM, if_neg h]
      cases val with
      | res t' v =>
        by_cases ht : t = t'
        · subst ht
          simp
        · simp [ht]
          intro h'
          exact absurd h'.symm ht
      | _ => simp
  · simp [matchesM]
  · simp [matchesM]
  · simp [matchesM]

/-- Claim C10: once the evaluator descends into a container-variant
condition's wrapped value, predicate evaluation stays disabled at
every further nesting depth: the outcome of matching a container
condition never depends on the behaviour of any plain function
(environment irrelevance), nothing is ever invoked (empty trace) —
and both facts hold for the whole recursive evaluation below the
container, since they hold for every condition once the flag is off.
A plain function reached with the flag off can only match by strict
identity. -/
theorem c10_deep_suppression (t : Bool) (c val : JVal) (ev : Bool)
    (env env2 : Env) (i : Nat) :
    matchesM (.opt t c) val ev env = matchesM (.opt t c) val ev env2 ∧
    (matchesM (.opt t c) val ev env).2 = [] ∧
    matchesM (.res t c) val ev env = matchesM (.res t c) val ev env2 ∧
    (matchesM (.res t c) val ev env).2 = [] ∧
    matchesM c val false env = matchesM c val false env2 ∧
    (matchesM c val false env).2 = [] ∧
    (matchesM (.fn i) val false env).1 = decide (JVal.fn i = val) := by
  have base := (matchesM_noEval (sizeOf c)).1
  refine ⟨?_, ?_, ?_, ?_, (base c val env env2 le_rfl).1,
    (base c val env env2 le_rfl).2, ?_⟩
  · simp only [matchesM]
    split
    · rfl
    · split
      · split
        · exact (base c _ env env2 le_rfl).1
        · rfl
      · rfl
  · simp only [matchesM]
    split
    · rfl
    · split
      · split
        · exact (base c _ env env2 le_rfl).2
        · rfl
      · rfl
  · simp only [matchesM]
    split
    · rfl
    · split
      · split
        · exact (base c _ env env2 le_rfl).1
        · rfl
      · rfl
  · simp only [matchesM]
    split
    · rfl
    · split
      · split
        · exact (base c _ env env2 le_rfl).2
        · rfl
      · rfl
  · simp only [matchesM]
    split
    · rename_i h
      simp [h]
    · rename_i h
      simp [h]

/-- Claim C9: the compiled matcher produces exactly the same outcome
(value or error, and the same invocations) as a direct `match` call on
every candidate; compilation is only a closure over the pattern. -/
theorem c9_compile_eq_match (patt : JVal) (env : Env) (val : JVal) :
    compile patt env val = matchJ val patt env := rfl

/-- The trace produced by testing one chained-pattern entry's condition
against the candidate (only branch pairs test a condition). -/
def entryCondTrace (val : JVal) (env : Env) : JVal → List Nat
  | .arr l => (matchesM (l.head?.getD .undef) val true env).2
  | _ => []

/-- Concatenated condition-test traces over a list of entries. -/
def chainCondTrace (val : JVal) (env : Env) : List JVal → List Nat
  | [] => []
  | e :: rest => entryCondTrace val env e ++ chainCondTrace val env rest

/-- An entry that is a branch pair whose condition fails against the
candidate. -/
def FailingBranch (val : JVal) (env : Env) (e : JVal) : Prop :=
  ∃ l, e = JVal.arr l ∧
    (matchesM (l.head?.getD .undef) val true env).1 = false

theorem withTrace_withTrace (t1 t2 : List Nat) (r : DRes) :
    withTrace t1 (withTrace t2 r) = withTrace (t1 ++ t2) r := by
  simp [withTrace]

/-- Claim C3: in an ordered pattern, once every earlier entry is a
branch whose condition fails, the branch whose condition matches
determines the whole dispatch: the outcome is that branch's result
evaluation and the trace consists only of the condition tests up to and
including the winning branch plus the winning result — independent of
all later entries and of the default, so no later condition is tested
and no later result function is invoked. -/
theorem c3_first_match_wins (val : JVal) (pre post bl : List JVal)
    (d : JVal) (env : Env)
    (hpre : ∀ e ∈ pre, FailingBranch val env e)
    (hb : (matchesM (bl.head?.getD .undef) val true env).1 = true) :
    matchChained val (pre ++ JVal.arr bl :: post) d env =
      withTrace (chainCondTrace val env pre ++
          (matchesM (bl.head?.getD .undef) val true env).2)
        (evalBranchResult ((bl.drop 1).head?.getD .undef) val env) := by
  induction pre with
  | nil =>
    simp only [List.nil_append, matchChained, chainCondTrace]
    rw [if_pos hb]
  | cons e pre ih =>
    obtain ⟨l, rfl, hfail⟩ := hpre e (List.mem_cons_self e pre)
    simp only [List.cons_append, matchChained]
    rw [if_neg (by simp [hfail])]
    simp only [List.append_eq]
    rw [ih (fun x hx => hpre x (List.mem_cons_of_mem _ hx))]
    rw [withTrace_withTrace]
    simp [chainCondTrace, entryCondTrace]

theorem c3_first_match_wins_witness :
    (∀ e ∈ [JVal.arr [JVal.prim 3, JVal.prim 0]],
      FailingBranch (JVal.prim 5) (fun _ _ => JVal.undef) e) ∧
    (matchesM (([JVal.prim 5, JVal.prim 9].head?).getD .undef)
      (JVal.prim 5) true (fun _ _ => JVal.undef)).1 = true ∧
    matchChained (JVal.prim 5)
      ([JVal.arr [JVal.prim 3, JVal.prim 0]] ++
        JVal.arr [JVal.prim 5, JVal.prim 9] ::
          [JVal.arr [JVal.fn 0, JVal.prim 1]])
      .wildcard (fun _ _ => JVal.undef) = (.ok (.prim 9), []) := by
  have h1 : ∀ e ∈ [JVal.arr [JVal.prim 3, JVal.prim 0]],
      FailingBranch (JVal.prim 5) (fun _ _ => JVal.undef) e := by
    intro e he
    simp only [List.mem_singleton] at he
    subst he
    exact ⟨[JVal.prim 3, JVal.prim 0], rfl, by simp [matchesM]⟩
  have h2 : (matchesM (([JVal.prim 5, JVal.prim 9].head?).getD .undef)
      (JVal.prim 5) true (fun _ _ => JVal.undef)).1 = true := by
    simp [matchesM]
  refine ⟨h1, h2, ?_⟩
  rw [c3_first_match_wins (JVal.prim 5) [JVal.arr [JVal.prim 3, JVal.prim 0]]
    [JVal.arr [JVal.fn 0, JVal.prim 1]] [JVal.prim 5, JVal.prim 9]
    .wildcard (fun _ _ => JVal.undef) h1 h2]
  simp [chainCondTrace, entryCondTrace, matchesM, evalBranchResult, withTrace]

/-- Claim C4: a bare (non-`Fn`-wrapped) function entry reached in an
ordered pattern ends the scan: the dispatch outcome is exactly that of
calling the entry with no arguments (for the sentinel this call raises
the exhausted error), independent of every later entry and of the
default, so no subsequent entry is examined. -/
theorem c4_bare_function_terminal (val : JVal) (pre post : List JVal)
    (e d : JVal) (env : Env)
    (hpre : ∀ b ∈ pre, FailingBranch val env b)
    (he : (∃ i, e = JVal.fn i) ∨ e = JVal.wildcard) :
    matchChained val (pre ++ e :: post) d env =
      withTrace (chainCondTrace val env pre) (callJ0 e env) := by
  induction pre with
  | nil =>
    rcases he with ⟨i, rfl⟩ | rfl
    · simp [matchChained, chainCondTrace, withTrace, callJ0, callJ1]
    · simp [matchChained, chainCondTrace, withTrace, callJ0, callJ1]
  | cons b pre ih =>
    obtain ⟨l, rfl, hfail⟩ := hpre b (List.mem_cons_self b pre)
    simp only [List.cons_append, matchChained]
    rw [if_neg (by simp [hfail])]
    simp only [List.append_eq]
    rw [ih (fun x hx => hpre x (List.mem_cons_of_mem _ hx))]
    rw [withTrace_withTrace]
    simp [chainCondTrace, entryCondTrace]

theorem c4_bare_function_terminal_witness :
    (∀ b ∈ [JVal.arr [JVal.prim 3, JVal.prim 0]],
      FailingBranch (JVal.prim 5) (fun _ _ => JVal.undef) b) ∧
    ((∃ i, JVal.fn 7 = JVal.fn i) ∨ JVal.fn 7 = JVal.wildcard) ∧
    matchChained (JVal.prim 5)
      ([JVal.arr [JVal.prim 3, JVal.prim 0]] ++
        JVal.fn 7 :: [JVal.arr [JVal.prim 5, JVal.prim 1]])
      .wildcard (fun _ _ => JVal.undef) = (.ok .undef, [7]) := by
  have h1 : ∀ b ∈ [JVal.arr [JVal.prim 3, JVal.prim 0]],
      FailingBranch (JVal.prim 5) (fun _ _ => JVal.undef) b := by
    intro b hb
    simp only [List.mem_singleton] at hb
    subst hb
    exact ⟨[JVal.prim 3, JVal.prim 0], rfl, by simp [matchesM]⟩
  refine ⟨h1, Or.inl ⟨7, rfl⟩, ?_⟩
  rw [c4_bare_function_terminal (JVal.prim 5)
    [JVal.arr [JVal.prim 3, JVal.prim 0]]
    [JVal.arr [JVal.prim 5, JVal.prim 1]] (JVal.fn 7)
    .wildcard (fun _ _ => JVal.undef) h1 (Or.inl ⟨7, rfl⟩)]
  simp [chainCondTrace, entryCondTrace, matchesM, callJ0, callJ1, withTrace]

theorem lookupField_isSome_of_mem {fields : List (String × JVal)}
    {k : String} {c : JVal} (h : (k, c) ∈ fields) :
    (lookupField fields k).isSome = true := by
  induction fields with
  | nil => simp at h
  | cons p rest ih =>
    obtain ⟨k', v'⟩ := p
    simp only [lookupField]
    split
    · simp
    · rename_i hne
      rcases List.mem_cons.mp h with h' | h'
      · exact absurd (congrArg Prod.fst h').symm hne
      · exact ih h'

theorem lookupField_eq_of_mem_nodup {fields : List (String × JVal)}
    {k : String} {c : JVal} (hnd : (fields.map Prod.fst).Nodup)
    (h : (k, c) ∈ fields) : lookupField fields k = some c := by
  induction fields with
  | nil => simp at h
  | cons p rest ih =>
    obtain ⟨k', v'⟩ := p
    simp only [List.map_cons, List.nodup_cons] at hnd
    rcases List.mem_cons.mp h with h' | h'
    · obtain ⟨h1, h2⟩ := Prod.mk.injEq .. ▸ h'.symm
      subst h1
      subst h2
      simp [lookupField]
    · have hne : k' ≠ k := by
        intro he
        subst he
        exact hnd.1 (List.mem_map_of_mem Prod.fst h')
      simp only [lookupField, if_neg hne]
      exact ih hnd.2 h'

/-- Every key of the condition must be present and match: the
object-field descent characterized as a universally quantified
statement over the condition's own fields. -/
theorem matchesFields_iff (fs : List (String × JVal)) (val : JVal)
    (ev : Bool) (env : Env) :
    (matchesFields fs val ev env).1 = true ↔
      ∀ p ∈ fs, val.hasKey p.1 = true ∧
        (matchesM p.2 (val.getKey p.1) ev env).1 = true := by
  induction fs with
  | nil => simp [matchesFields]
  | cons p rest ih =>
    obtain ⟨k, c⟩ := p
    simp only [matchesFields]
    split
    · rename_i hk
      split
      · rename_i hm
        simp only [List.mem_cons]
        constructor
        · intro hrest q hq
          rcases hq with rfl | hq
          · exact ⟨hk, hm⟩
          · exact (ih.mp hrest) q hq
        · intro hall
          exact ih.mpr fun q hq => hall q (Or.inr hq)
      · rename_i hm
        simp only [List.mem_cons]
        constructor
        · intro hfalse
          simp at hfalse
        · intro hall
          exact absurd (hall (k, c) (Or.inl rfl)).2 (by simp [hm])
    · rename_i hk
      simp only [List.mem_cons]
      constructor
      · intro hfalse
        simp at hfalse
      · intro hall
        exact absurd (hall (k, c) (Or.inl rfl)).1 hk

/-- Every index of the condition must exist and match: the array
descent characterized index-wise. -/
theorem matchesElems_iff (cs : List JVal) (vs : List JVal) (ev : Bool)
    (env : Env) :
    (matchesElems cs vs ev env).1 = true ↔
      (cs.length ≤ vs.length ∧ ∀ i < cs.length,
        (matchesM (cs.getD i .undef) (vs.getD i .undef) ev env).1
          = true) := by
  induction cs generalizing vs with
  | nil => simp [matchesElems]
  | cons c rest ih =>
    cases vs with
    | nil => simp [matchesElems]
    | cons w ws =>
      simp only [matchesElems]
      split
      · rename_i hm
        rw [show ((matchesElems rest ws ev env).1,
            (matchesM c w ev env).2 ++ (matchesElems rest ws ev env).2).1
          = (matchesElems rest ws ev env).1 from rfl]
        rw [ih ws]
        constructor
        · intro ⟨h1, h2⟩
          refine ⟨by simpa using h1, ?_⟩
          intro i hi
          cases i with
          | zero => simpa using hm
          | succ j => simpa using h2 j (by simpa using hi)
        · intro ⟨h1, h2⟩
          refine ⟨by simpa using h1, ?_⟩
          intro j hj
          simpa using h2 (j + 1) (by simpa using hj)
      · rename_i hm
        constructor
        · intro hfalse
          simp at hfalse
        · intro ⟨h1, h2⟩
          exact absurd (by simpa using h2 0 (by simp)) (by simp [hm])

/-- Claim C5: an object-like condition that is not a container matches
a candidate exactly when the candidate is object-like of the same
shape kind (array with array, non-array with non-array) and every own
key of the condition is present in the candidate with a recursively
matching value; a missing key is no match, candidate keys absent from
the condition are ignored, and an array condition never matches an
object candidate nor vice versa.  (The `Nodup` hypothesis only rules
out association lists with duplicate keys standing for the same object
when the candidate is the condition itself; JS objects cannot repeat a
key.) -/
theorem c5_object_partial_matching (fields : List (String × JVal))
    (cs : List JVal) (val : JVal) (ev : Bool) (env : Env)
    (hnd : val = JVal.obj fields → (fields.map Prod.fst).Nodup) :
    ((matchesM (.obj fields) val ev env).1 = true ↔
      (val.isObjectLike = true ∧ val.isArrayJ = false ∧
        ∀ p ∈ fields, val.hasKey p.1 = true ∧
          (matchesM p.2 (val.getKey p.1) ev env).1 = true)) ∧
    ((matchesM (.arr cs) val ev env).1 = true ↔
      ∃ vs, val = .arr vs ∧ cs.length ≤ vs.length ∧
        ∀ i < cs.length,
          (matchesM (cs.getD i .undef) (vs.getD i .undef) ev env).1
            = true) ∧
    (matchesM (.obj fields) (.arr cs) ev env).1 = false ∧
    (∀ gs, (matchesM (.arr cs) (.obj gs) ev env).1 = false) := by
  refine ⟨?_, ?_, ?_, ?_⟩
  · by_cases h : JVal.obj fields = val
    · subst h
      rw [matchesM_refl]
      simp only [true_iff]
      refine ⟨rfl, rfl, ?_⟩
      intro p hp
      obtain ⟨k, c⟩ := p
      refine ⟨by simp [JVal.hasKey, lookupField_isSome_of_mem hp], ?_⟩
      have : (JVal.obj fields).getKey k = c := by
        simp [JVal.getKey, lookupField_eq_of_mem_nodup (hnd rfl) hp]
      rw [this, matchesM_refl]
    · simp only [matchesM, if_neg h]
      split
      · rename_i hcond
        simp only [Bool.and_eq_true, Bool.not_eq_eq_eq_not,
          Bool.not_true] at hcond
        rw [matchesFields_iff]
        simp [hcond.1, hcond.2]
      · rename_i hcond
        simp only [Bool.and_eq_true, Bool.not_eq_eq_eq_not,
          Bool.not_true] at hcond
        constructor
        · intro hfalse
          simp at hfalse
        · intro ⟨h1, h2, _⟩
          exact absurd ⟨h1, h2⟩ hcond
  · by_cases h : JVal.arr cs = val
    · subst h
      rw [matchesM_refl]
      simp only [true_iff]
      exact ⟨cs, rfl, le_rfl, fun i _ => by rw [matchesM_refl]⟩
    · simp only [matchesM, if_neg h]
      cases val with
      | arr vs =>
        rw [matchesElems_iff]
        constructor
        · intro hm
          exact ⟨vs, rfl, hm.1, hm.2⟩
        · intro ⟨vs', hv, h1, h2⟩
          obtain rfl : vs = vs' := by simpa using hv
          exact ⟨h1, h2⟩
      | _ => simp
  · simp only [matchesM]
    rw [if_neg (by simp)]
    simp [JVal.isArrayJ]
  · intro gs
    simp only [matchesM]
    rw [if_neg (by simp)]

theorem c5_object_partial_matching_witness :
    ((JVal.obj [("a", JVal.prim 1), ("b", JVal.prim 2)])
        = JVal.obj [("a", JVal.prim 1)] →
      (([("a", JVal.prim 1)].map Prod.fst).Nodup)) ∧
    ((matchesM (.obj [("a", JVal.prim 1)])
        (JVal.obj [("a", JVal.prim 1), ("b", JVal.prim 2)]) true
        (fun _ _ => JVal.undef)).1 = true ↔
      ((JVal.obj [("a", JVal.prim 1), ("b", JVal.prim 2)]).isObjectLike
          = true ∧
        (JVal.obj [("a", JVal.prim 1), ("b", JVal.prim 2)]).isArrayJ
          = false ∧
        ∀ p ∈ [("a", JVal.prim 1)],
          (JVal.obj [("a", JVal.prim 1), ("b", JVal.prim 2)]).hasKey p.1
            = true ∧
          (matchesM p.2
            ((JVal.obj [("a", JVal.prim 1), ("b", JVal.prim 2)]).getKey
              p.1) true (fun _ _ => JVal.undef)).1 = true)) := by
  have hnd : (JVal.obj [("a", JVal.prim 1), ("b", JVal.prim 2)])
      = JVal.obj [("a", JVal.prim 1)] →
      (([("a", JVal.prim 1)].map Prod.fst).Nodup) := by
    intro h
    simp at h
  exact ⟨hnd, (c5_object_partial_matching [("a", JVal.prim 1)] []
    (JVal.obj [("a", JVal.prim 1), ("b", JVal.prim 2)]) true
    (fun _ _ => JVal.undef) hnd).1⟩

/-- The claim's invalid-pattern condition, applied across nested
dispatches: a dispatch raises "invalid pattern" when the pattern it
receives is neither an ordered sequence (array) nor a keyed record
(object-like), or when a keyed pattern is applied to a candidate that
is not an Option/Result instance; selecting a truthy non-function arm
of a keyed pattern dispatches that arm as a pattern against the
unwrapped value, a further application of the same rule.  (Defaults,
arm functions and chained branches never raise invalid-pattern.) -/
def dispatchInvalid : JVal → JVal → Bool
  | val, .obj fields =>
    match val with
    | .opt true v =>
      let arm := (lookupField fields "Some").getD .undef
      arm.truthy && !arm.isFunctionJ && dispatchInvalid v arm
    | .opt false _ => false
    | .res true v =>
      let arm := (lookupField fields "Ok").getD .undef
      arm.truthy && !arm.isFunctionJ && dispatchInvalid v arm
    | .res false v =>
      let arm := (lookupField fields "Err").getD .undef
      arm.truthy && !arm.isFunctionJ && dispatchInvalid v arm
    | _ => true
  | _, .arr _ => false
  | val, .opt _ _ => !val.isContainer
  | val, .res _ _ => !val.isContainer
  | _, _ => true
termination_by _ patt => sizeOf patt
decreasing_by
  · have := sizeOf_lookupField_lt fields "Some"
    simp
    omega
  · have := sizeOf_lookupField_lt fields "Ok"
    simp
    omega
  · have := sizeOf_lookupField_lt fields "Err"
    simp
    omega

theorem callJ1_ne_invalid (f a : JVal) (env : Env) :
    (callJ1 f a env).1 ≠ Except.error MErr.invalidPattern := by
  cases f <;> simp [callJ1]

theorem callJ0_ne_invalid (f : JVal) (env : Env) :
    (callJ0 f env).1 ≠ Except.error MErr.invalidPattern :=
  callJ1_ne_invalid f .undef env

theorem mappedFallthrough_ne_invalid (fields : List (String × JVal))
    (d : JVal) (env : Env) :
    (mappedFallthrough fields d env).1
      ≠ Except.error MErr.invalidPattern := by
  simp only [mappedFallthrough]
  split
  · exact callJ0_ne_invalid _ env
  · exact callJ0_ne_invalid _ env

/-- A container instance used as the pattern behaves like an empty
keyed record: for container candidates the dispatch falls through to
the default and never raises invalid-pattern. -/
theorem matchMapped_empty_ne_invalid (t : Bool) (v d : JVal)
    (env : Env) :
    (matchMapped (JVal.opt t v) [] d env).1
      ≠ Except.error MErr.invalidPattern ∧
    (matchMapped (JVal.res t v) [] d env).1
      ≠ Except.error MErr.invalidPattern := by
  cases t
  · refine ⟨?_, ?_⟩ <;>
    · simp [matchMapped, lookupField, JVal.truthy, JVal.isFunctionJ]
      exact mappedFallthrough_ne_invalid [] d env
  · refine ⟨?_, ?_⟩ <;>
    · simp [matchMapped, lookupField, JVal.truthy, JVal.isFunctionJ]
      exact mappedFallthrough_ne_invalid [] d env

theorem evalBranchResult_ne_invalid (r v : JVal) (env : Env) :
    (evalBranchResult r v env).1 ≠ Except.error MErr.invalidPattern := by
  cases r <;> simp [evalBranchResult]

/-- An ordered (chained) pattern never raises the invalid-pattern
error, whatever its entries, candidate or default. -/
theorem matchChained_ne_invalid (entries : List JVal) (val d : JVal)
    (env : Env) :
    (matchChained val entries d env).1
      ≠ Except.error MErr.invalidPattern := by
  induction entries with
  | nil => exact callJ1_ne_invalid _ _ env
  | cons e rest ih =>
    cases e with
    | fnWrapped i => simp [matchChained]
    | fn i => exact callJ1_ne_invalid _ _ env
    | wildcard => exact callJ1_ne_invalid _ _ env
    | arr l =>
      simp only [matchChained]
      split
      · exact evalBranchResult_ne_invalid _ _ env
      · exact ih
    | undef => simp [matchChained]
    | prim c => simp [matchChained]
    | obj fs => simp [matchChained]
    | opt t v => simp [matchChained]
    | res t v => simp [matchChained]

theorem c7_aux : ∀ n (patt : JVal), sizeOf patt ≤ n →
    ∀ (val d : JVal) (env : Env),
    ((matchDispatch val patt d env).1 = Except.error MErr.invalidPattern
      ↔ dispatchInvalid val patt = true) := by
  intro n
  induction n with
  | zero => intro patt h; cases patt <;> simp at h
  | succ n ih =>
    intro patt h val d env
    cases patt with
    | arr entries =>
      simp only [matchDispatch, dispatchInvalid]
      simp [matchChained_ne_invalid entries val d env]
    | obj fields =>
      simp only [matchDispatch]
      cases val with
      | opt tag v =>
        cases tag with
        | true =>
          simp only [matchMapped, dispatchInvalid]
          split
          · split
            · rename_i htr hfn
              simp [callJ1_ne_invalid _ _ env, hfn]
            · rename_i htr hfn
              have harm : sizeOf ((lookupField fields "Some").getD
                  JVal.undef) ≤ n := by
                have := sizeOf_lookupField_lt fields "Some"
                simp at h
                omega
              rw [ih _ harm]
              simp [htr, hfn]
          · rename_i htr
            simp [mappedFallthrough_ne_invalid fields d env, htr]
        | false =>
          simp only [matchMapped, dispatchInvalid]
          split
          · simp [callJ0_ne_invalid _ env]
          · simp [mappedFallthrough_ne_invalid fields d env]
      | res tag v =>
        cases tag with
        | true =>
          simp only [matchMapped, dispatchInvalid]
          split
          · split
            · rename_i htr hfn
              simp [callJ1_ne_invalid _ _ env, hfn]
            · rename_i htr hfn
              have harm : sizeOf ((lookupField fields "Ok").getD
                  JVal.undef) ≤ n := by
                have := sizeOf_lookupField_lt fields "Ok"
                simp at h
                omega
              rw [ih _ harm]
              simp [htr, hfn]
          · rename_i htr
            simp [mappedFallthrough_ne_invalid fields d env, htr]
        | false =>
          simp only [matchMapped, dispatchInvalid]
          split
          · split
            · rename_i htr hfn
              simp [callJ1_ne_invalid _ _ env, hfn]
            · rename_i htr hfn
              have harm : sizeOf ((lookupField fields "Err").getD
                  JVal.undef) ≤ n := by
                have := sizeOf_lookupField_lt fields "Err"
                simp at h
                omega
              rw [ih _ harm]
              simp [htr, hfn]
          · rename_i htr
            simp [mappedFallthrough_ne_invalid fields d env, htr]
      | undef => simp [matchMapped, dispatchInvalid]
      | prim c => simp [matchMapped, dispatchInvalid]
      | wildcard => simp [matchMapped, dispatchInvalid]
      | fn i => simp [matchMapped, dispatchInvalid]
      | fnWrapped i => simp [matchMapped, dispatchInvalid]
      | arr es => simp [matchMapped, dispatchInvalid]
      | obj gs => simp [matchMapped, dispatchInvalid]
    | opt pt pv =>
      simp only [matchDispatch, dispatchInvalid]
      cases val with
      | opt t v =>
        simp [(matchMapped_empty_ne_invalid t v d env).1,
          JVal.isContainer]
      | res t v =>
        simp [(matchMapped_empty_ne_invalid t v d env).2,
          JVal.isContainer]
      | undef => simp [matchMapped, JVal.isContainer]
      | prim c => simp [matchMapped, JVal.isContainer]
      | wildcard => simp [matchMapped, JVal.isContainer]
      | fn i => simp [matchMapped, JVal.isContainer]
      | fnWrapped i => simp [matchMapped, JVal.isContainer]
      | obj gs => simp [matchMapped, JVal.isContainer]
      | arr es => simp [matchMapped, JVal.isContainer]
    | res pt pv =>
      simp only [matchDispatch, dispatchInvalid]
      cases val with
      | opt t v =>
        simp [(matchMapped_empty_ne_invalid t v d env).1,
          JVal.isContainer]
      | res t v =>
        simp [(matchMapped_empty_ne_invalid t v d env).2,
          JVal.isContainer]
      | undef => simp [matchMapped, JVal.isContainer]
      | prim c => simp [matchMapped, JVal.isContainer]
      | wildcard => simp [matchMapped, JVal.isContainer]
      | fn i => simp [matchMapped, JVal.isContainer]
      | fnWrapped i => simp [matchMapped, JVal.isContainer]
      | obj gs => simp [matchMapped, JVal.isContainer]
      | arr es => simp [matchMapped, JVal.isContainer]
    | undef => simp [matchDispatch, dispatchInvalid]
    | prim c => simp [matchDispatch, dispatchInvalid]
    | wildcard => simp [matchDispatch, dispatchInvalid]
    | fn i => simp [matchDispatch, dispatchInvalid]
    | fnWrapped i => simp [matchDispatch, dispatchInvalid]

/-- Claim C7: a dispatch raises the invalid-pattern error exactly when
the pattern it is given is neither an ordered sequence (array) nor a
keyed record (object-like), or when a keyed pattern is applied to a
candidate that is not an Option/Result container — the rule applying
equally to every nested dispatch of a selected arm — and in all other
cases no invalid-pattern error is raised, whatever the default branch
and the behaviour of the involved functions. -/
theorem c7_invalid_pattern_iff (patt val d : JVal) (env : Env) :
    (matchDispatch val patt d env).1 = Except.error MErr.invalidPattern
      ↔ dispatchInvalid val patt = true :=
  c7_aux (sizeOf patt) patt le_rfl val d env

/-- Well-typed, sentinel-clean patterns for the exhaustion analysis: an
ordered chain of `[cond, result]` branches with an optional trailing
default producer, or a keyed record whose `Some`/`Ok`/`Err` arms are
plain functions (`Sum.inl`) or nested patterns (`Sum.inr`) and whose
`None` arm and `_` default are plain functions — the shapes the
TypeScript types `ChainedBranches`/`MappedBranches` allow. -/
inductive TPat where
  | chain (brs : List (JVal × JVal)) (dflt : Option Nat)
  | mapped (aSome : Option (Nat ⊕ TPat)) (aNone : Option Nat)
      (aOk aErr : Option (Nat ⊕ TPat)) (dflt : Option Nat)

mutual

/-- Sentinel cleanliness: the `Default` sentinel does not occur in a
branch's result position at any level (there it would be invoked on a
successful match and raise "exhausted" despite the match). -/
def cleanB : TPat → Bool
  | .chain brs _ => brs.all (fun b => b.2 != JVal.wildcard)
  | .mapped aSome _ aOk aErr _ =>
    armClean aSome && armClean aOk && armClean aErr

/-- Cleanliness of one keyed arm. -/
def armClean : Option (Nat ⊕ TPat) → Bool
  | some (.inr q) => cleanB q
  | _ => true

end

/-- A record field holding a plain function, when present. -/
def fnField (k : String) : Option Nat → List (String × JVal)
  | none => []
  | some i => [(k, JVal.fn i)]

/-- The trailing entry of an encoded chain: the optional default
producer. -/
def tailDflt : Option Nat → List JVal
  | none => []
  | some i => [JVal.fn i]

mutual

/-- The JavaScript value a typed pattern denotes. -/
def TPat.toJVal : TPat → JVal
  | .chain brs dflt =>
    .arr (brs.map (fun b => JVal.arr [b.1, b.2]) ++ tailDflt dflt)
  | .mapped aSome aNone aOk aErr dflt =>
    .obj (armField "Some" aSome ++ (fnField "None" aNone ++
      (armField "Ok" aOk ++ (armField "Err" aErr ++ fnField "_" dflt))))

/-- The record field an arm denotes. -/
def armField (k : String) : Option (Nat ⊕ TPat) → List (String × JVal)
  | none => []
  | some (.inl i) => [(k, JVal.fn i)]
  | some (.inr q) => [(k, q.toJVal)]

end

/-- The value stored for an arm, if any. -/
def armVal : Option (Nat ⊕ TPat) → Option JVal
  | none => none
  | some (.inl i) => some (JVal.fn i)
  | some (.inr q) => some q.toJVal

theorem lookupField_append (xs ys : List (String × JVal)) (k : String) :
    lookupField (xs ++ ys) k =
      (match lookupField xs k with
        | some v => some v
        | none => lookupField ys k) := by
  induction xs with
  | nil => simp [lookupField]
  | cons p rest ih =>
    obtain ⟨k', v⟩ := p
    simp only [List.cons_append, lookupField]
    split
    · simp
    · exact ih

theorem lookupField_armField_self (k : String)
    (a : Option (Nat ⊕ TPat)) :
    lookupField (armField k a) k = armVal a := by
  rcases a with _ | (i | q) <;> simp [armField, armVal, lookupField]

theorem lookupField_armField_ne (k k' : String) (h : ¬(k = k'))
    (a : Option (Nat ⊕ TPat)) :
    lookupField (armField k a) k' = none := by
  rcases a with _ | (i | q) <;> simp [armField, lookupField, h]

theorem lookupField_fnField_self (k : String) (o : Option Nat) :
    lookupField (fnField k o) k = Option.map JVal.fn o := by
  rcases o with _ | i <;> simp [fnField, lookupField]

theorem lookupField_fnField_ne (k k' : String) (h : ¬(k = k'))
    (o : Option Nat) :
    lookupField (fnField k o) k' = none := by
  rcases o with _ | i <;> simp [fnField, lookupField, h]

theorem mapped_lookup_Some (aSome : Option (Nat ⊕ TPat))
    (aNone : Option Nat) (aOk aErr : Option (Nat ⊕ TPat))
    (dflt : Option Nat) :
    lookupField (armField "Some" aSome ++ (fnField "None" aNone ++
        (armField "Ok" aOk ++ (armField "Err" aErr ++ fnField "_" dflt))))
      "Some" = armVal aSome := by
  rw [lookupField_append, lookupField_armField_self]
  cases armVal aSome with
  | some x => rfl
  | none =>
    simp [lookupField_append,
      lookupField_fnField_ne "None" "Some" (by decide),
      lookupField_armField_ne "Ok" "Some" (by decide),
      lookupField_armField_ne "Err" "Some" (by decide),
      lookupField_fnField_ne "_" "Some" (by decide)]

theorem mapped_lookup_None (aSome : Option (Nat ⊕ TPat))
    (aNone : Option Nat) (aOk aErr : Option (Nat ⊕ TPat))
    (dflt : Option Nat) :
    lookupField (armField "Some" aSome ++ (fnField "None" aNone ++
        (armField "Ok" aOk ++ (armField "Err" aErr ++ fnField "_" dflt))))
      "None" = Option.map JVal.fn aNone := by
  rw [lookupField_append,
    lookupField_armField_ne "Some" "None" (by decide),
    lookupField_append, lookupField_fnField_self]
  cases aNone with
  | some x => rfl
  | none =>
    simp [lookupField_append,
      lookupField_armField_ne "Ok" "None" (by decide),
      lookupField_armField_ne "Err" "None" (by decide),
      lookupField_fnField_ne "_" "None" (by decide)]

theorem mapped_lookup_Ok (aSome : Option (Nat ⊕ TPat))
    (aNone : Option Nat) (aOk aErr : Option (Nat ⊕ TPat))
    (dflt : Option Nat) :
    lookupField (armField "Some" aSome ++ (fnField "None" aNone ++
        (armField "Ok" aOk ++ (armField "Err" aErr ++ fnField "_" dflt))))
      "Ok" = armVal aOk := by
  rw [lookupField_append,
    lookupField_armField_ne "Some" "Ok" (by decide),
    lookupField_append, lookupField_fnField_ne "None" "Ok" (by decide),
    lookupField_append, lookupField_armField_self]
  cases armVal aOk with
  | some x => rfl
  | none =>
    simp [lookupField_append,
      lookupField_armField_ne "Err" "Ok" (by decide),
      lookupField_fnField_ne "_" "Ok" (by decide)]

theorem mapped_lookup_Err (aSome : Option (Nat ⊕ TPat))
    (aNone : Option Nat) (aOk aErr : Option (Nat ⊕ TPat))
    (dflt : Option Nat) :
    lookupField (armField "Some" aSome ++ (fnField "None" aNone ++
        (armField "Ok" aOk ++ (armField "Err" aErr ++ fnField "_" dflt))))
      "Err" = armVal aErr := by
  rw [lookupField_append,
    lookupField_armField_ne "Some" "Err" (by decide),
    lookupField_append, lookupField_fnField_ne "None" "Err" (by decide),
    lookupField_append, lookupField_armField_ne "Ok" "Err" (by decide),
    lookupField_append, lookupField_armField_self]
  cases armVal aErr with
  | some x => rfl
  | none => simp [lookupField_fnField_ne "_" "Err" (by decide)]

theorem mapped_lookup_dflt (aSome : Option (Nat ⊕ TPat))
    (aNone : Option Nat) (aOk aErr : Option (Nat ⊕ TPat))
    (dflt : Option Nat) :
    lookupField (armField "Some" aSome ++ (fnField "None" aNone ++
        (armField "Ok" aOk ++ (armField "Err" aErr ++ fnField "_" dflt))))
      "_" = Option.map JVal.fn dflt := by
  rw [lookupField_append,
    lookupField_armField_ne "Some" "_" (by decide),
    lookupField_append, lookupField_fnField_ne "None" "_" (by decide),
    lookupField_append, lookupField_armField_ne "Ok" "_" (by decide),
    lookupField_append, lookupField_armField_ne "Err" "_" (by decide),
    lookupField_fnField_self]

mutual

/-- The claim's exhaustion condition for a clean pattern: every branch
or arm fails for the candidate and no default (`_` entry or trailing
default producer) exists at the failing level or at any enclosing
level (`hasD` records whether an enclosing level supplies one). -/
def specExhausted (val : JVal) (env : Env) : TPat → Bool → Bool
  | .chain brs dflt, hasD =>
    brs.all (fun b => !(matchesM b.1 val true env).1) &&
      dflt.isNone && !hasD
  | .mapped aSome aNone aOk aErr dflt, hasD =>
    match val with
    | .opt true v => armExhausted v env aSome (dflt.isSome || hasD)
    | .opt false _ => aNone.isNone && !(dflt.isSome || hasD)
    | .res true v => armExhausted v env aOk (dflt.isSome || hasD)
    | .res false v => armExhausted v env aErr (dflt.isSome || hasD)
    | _ => false

/-- Exhaustion through one keyed arm: a function arm never exhausts, a
missing arm exhausts exactly when no default is available, a nested
pattern arm exhausts by recursion. -/
def armExhausted (v : JVal) (env : Env) :
    Option (Nat ⊕ TPat) → Bool → Bool
  | some (.inl _), _ => false
  | some (.inr q), hasD => specExhausted v env q hasD
  | none, hasD => !hasD

end

/-- The `Default` sentinel is the only callable whose invocation
raises the exhausted error. -/
theorem callJ0_exhausted_iff (d : JVal) (env : Env) :
    (callJ0 d env).1 = Except.error MErr.exhausted ↔
      d = JVal.wildcard := by
  cases d <;> simp [callJ0, callJ1]

theorem evalBranchResult_ne_exhausted (r v : JVal) (env : Env)
    (h : r ≠ JVal.wildcard) :
    (evalBranchResult r v env).1 ≠ Except.error MErr.exhausted := by
  cases r <;> simp_all [evalBranchResult]

/-- Exhaustion of an encoded chain: it occurs exactly when every
branch's condition fails, there is no trailing default producer, and
the inherited default is the sentinel. -/
theorem chain_exhausted_iff (val : JVal) (env : Env) :
    ∀ (brs : List (JVal × JVal)) (dflt : Option Nat) (d : JVal),
    (∀ b ∈ brs, b.2 ≠ JVal.wildcard) →
    ((matchChained val
        (brs.map (fun b => JVal.arr [b.1, b.2]) ++ tailDflt dflt)
        d env).1 = Except.error MErr.exhausted ↔
      (brs.all (fun b => !(matchesM b.1 val true env).1) && dflt.isNone
        && (d == JVal.wildcard)) = true) := by
  intro brs
  induction brs with
  | nil =>
    intro dflt d hclean
    cases dflt with
    | none =>
      simp only [List.map_nil, List.nil_append, tailDflt, matchChained]
      simp [callJ0_exhausted_iff]
    | some i =>
      simp [tailDflt, matchChained, callJ0, callJ1]
  | cons p rest ih =>
    intro dflt d hclean
    obtain ⟨c, r⟩ := p
    have hr : r ≠ JVal.wildcard :=
      hclean (c, r) (List.mem_cons_self (c, r) rest)
    simp only [List.map_cons, List.cons_append, matchChained,
      List.head?_cons, Option.getD_some, List.drop_succ_cons,
      List.drop_zero]
    split
    · rename_i hm
      simp only [List.all_cons, hm, Bool.not_true, Bool.false_and,
        Bool.and_eq_true]
      simp [withTrace, evalBranchResult_ne_exhausted r val env hr]
    · rename_i hm
      have hm' : (matchesM c val true env).1 = false :=
        Bool.not_eq_true _ ▸ hm
      have hrest := ih dflt d
        (fun b hb => hclean b (List.mem_cons_of_mem _ hb))
      simp only [withTrace, List.append_eq]
      rw [hrest]
      simp [hm']

theorem toJVal_truthy (q : TPat) : q.toJVal.truthy = true := by
  cases q <;> simp [TPat.toJVal, JVal.truthy]

theorem toJVal_not_fn (q : TPat) : q.toJVal.isFunctionJ = false := by
  cases q <;> simp [TPat.toJVal, JVal.isFunctionJ]

theorem mappedInherit_encoded (aSome : Option (Nat ⊕ TPat))
    (aNone : Option Nat) (aOk aErr : Option (Nat ⊕ TPat))
    (dflt : Option Nat) (d : JVal) :
    mappedInherit (armField "Some" aSome ++ (fnField "None" aNone ++
        (armField "Ok" aOk ++ (armField "Err" aErr ++ fnField "_" dflt))))
      d = (match dflt with | some i => JVal.fn i | none => d) := by
  cases dflt with
  | some i =>
    simp [mappedInherit, mapped_lookup_dflt, JVal.isFunctionJ]
  | none =>
    simp [mappedInherit, mapped_lookup_dflt, JVal.isFunctionJ]

theorem mappedFallthrough_encoded (aSome : Option (Nat ⊕ TPat))
    (aNone : Option Nat) (aOk aErr : Option (Nat ⊕ TPat))
    (dflt : Option Nat) (d : JVal) (env : Env) :
    mappedFallthrough (armField "Some" aSome ++ (fnField "None" aNone ++
        (armField "Ok" aOk ++ (armField "Err" aErr ++ fnField "_" dflt))))
      d env =
      (match dflt with
        | some i => callJ0 (JVal.fn i) env
        | none => callJ0 d env) := by
  cases dflt with
  | some i =>
    simp [mappedFallthrough, mapped_lookup_dflt, JVal.isFunctionJ]
  | none =>
    simp [mappedFallthrough, mapped_lookup_dflt, JVal.isFunctionJ]

theorem exhausted_aux : ∀ n (p : TPat), sizeOf p ≤ n →
    ∀ (val d : JVal) (env : Env), cleanB p = true →
    ((matchDispatch val p.toJVal d env).1 = Except.error MErr.exhausted
      ↔ specExhausted val env p (d != JVal.wildcard) = true) := by
  intro n
  induction n with
  | zero => intro p h; cases p <;> simp at h
  | succ n ih =>
    intro p h val d env hclean
    cases p with
    | chain brs dflt =>
      have hcl : ∀ b ∈ brs, b.2 ≠ JVal.wildcard := by
        simpa [cleanB, List.all_eq_true] using hclean
      simp only [TPat.toJVal, matchDispatch]
      rw [chain_exhausted_iff val env brs dflt d hcl]
      simp [specExhausted, bne]
    | mapped aSome aNone aOk aErr dflt =>
      simp only [cleanB, Bool.and_eq_true] at hclean
      obtain ⟨⟨hcS, hcO⟩, hcE⟩ := hclean
      simp only [TPat.toJVal, matchDispatch]
      cases val with
      | opt tag v =>
        cases tag with
        | true =>
          simp only [matchMapped, mapped_lookup_Some]
          cases aSome with
          | none =>
            simp only [armVal, Option.getD_none, JVal.truthy,
              Bool.false_eq_true, if_false]
            rw [mappedFallthrough_encoded]
            cases dflt with
            | some i =>
              simp [callJ0, callJ1, specExhausted, armExhausted]
            | none =>
              rw [callJ0_exhausted_iff]
              simp [specExhausted, armExhausted, bne]
          | some a =>
            cases a with
            | inl i =>
              simp only [armVal, Option.getD_some, JVal.truthy,
                JVal.isFunctionJ, if_true]
              simp [callJ1, specExhausted, armExhausted]
            | inr q =>
              have hq : sizeOf q ≤ n := by simp at h; omega
              have hcq : cleanB q = true := by simpa [armClean] using hcS
              simp only [armVal, Option.getD_some, toJVal_truthy,
                toJVal_not_fn, Bool.false_eq_true, if_false, if_true]
              rw [mappedInherit_encoded]
              cases dflt with
              | some i =>
                rw [ih q hq v (JVal.fn i) env hcq]
                have hb : (JVal.fn i != JVal.wildcard) = true := by
                  simp [bne_iff_ne]
                rw [hb]
                simp [specExhausted, armExhausted]
              | none =>
                rw [ih q hq v d env hcq]
                simp [specExhausted, armExhausted]
        | false =>
          simp only [matchMapped, mapped_lookup_None]
          cases aNone with
          | some i =>
            have hsome : (Option.map JVal.fn (some i)).getD JVal.undef
                = JVal.fn i := rfl
            rw [hsome]
            simp only [JVal.isFunctionJ, if_true]
            simp [callJ0, callJ1, specExhausted]
          | none =>
            have hnone : (Option.map JVal.fn (none : Option Nat)).getD
                JVal.undef = JVal.undef := rfl
            rw [hnone]
            simp only [JVal.isFunctionJ, Bool.false_eq_true, if_false]
            rw [mappedFallthrough_encoded]
            cases dflt with
            | some i =>
              simp [callJ0, callJ1, specExhausted]
            | none =>
              rw [callJ0_exhausted_iff]
              simp [specExhausted, bne]
      | res tag v =>
        cases tag with
        | true =>
          simp only [matchMapped, mapped_lookup_Ok]
          cases aOk with
          | none =>
            simp only [armVal, Option.getD_none, JVal.truthy,
              Bool.false_eq_true, if_false]
            rw [mappedFallthrough_encoded]
            cases dflt with
            | some i =>
              simp [callJ0, callJ1, specExhausted, armExhausted]
            | none =>
              rw [callJ0_exhausted_iff]
              simp [specExhausted, armExhausted, bne]
          | some a =>
            cases a with
            | inl i =>
              simp only [armVal, Option.getD_some, JVal.truthy,
                JVal.isFunctionJ, if_true]
              simp [callJ1, specExhausted, armExhausted]
            | inr q =>
              have hq : sizeOf q ≤ n := by simp at h; omega
              have hcq : cleanB q = true := by simpa [armClean] using hcO
              simp only [armVal, Option.getD_some, toJVal_truthy,
                toJVal_not_fn, Bool.false_eq_true, if_false, if_true]
              rw [mappedInherit_encoded]
              cases dflt with
              | some i =>
                rw [ih q hq v (JVal.fn i) env hcq]
                have hb : (JVal.fn i != JVal.wildcard) = true := by
                  simp [bne_iff_ne]
                rw [hb]
                simp [specExhausted, armExhausted]
              | none =>
                rw [ih q hq v d env hcq]
                simp [specExhausted, armExhausted]
        | false =>
          simp only [matchMapped, mapped_lookup_Err]
          cases aErr with
          | none =>
            simp only [armVal, Option.getD_none, JVal.truthy,
              Bool.false_eq_true, if_false]
            rw [mappedFallthrough_encoded]
            cases dflt with
            | some i =>
              simp [callJ0, callJ1, specExhausted, armExhausted]
            | none =>
              rw [callJ0_exhausted_iff]
              simp [specExhausted, armExhausted, bne]
          | some a =>
            cases a with
            | inl i =>
              simp only [armVal, Option.getD_some, JVal.truthy,
                JVal.isFunctionJ, if_true]
              simp [callJ1, specExhausted, armExhausted]
            | inr q =>
              have hq : sizeOf q ≤ n := by simp at h; omega
              have hcq : cleanB q = true := by simpa [armClean] using hcE
              simp only [armVal, Option.getD_some, toJVal_truthy,
                toJVal_not_fn, Bool.false_eq_true, if_false, if_true]
              rw [mappedInherit_encoded]
              cases dflt with
              | some i =>
                rw [ih q hq v (JVal.fn i) env hcq]
                have hb : (JVal.fn i != JVal.wildcard) = true := by
                  simp [bne_iff_ne]
                rw [hb]
                simp [specExhausted, armExhausted]
              | none =>
                rw [ih q hq v d env hcq]
                simp [specExhausted, armExhausted]
      | undef => simp [matchMapped, specExhausted]
      | prim c => simp [matchMapped, specExhausted]
      | wildcard => simp [matchMapped, specExhausted]
      | fn i => simp [matchMapped, specExhausted]
      | fnWrapped i => simp [matchMapped, specExhausted]
      | obj gs => simp [matchMapped, specExhausted]
      | arr es => simp [matchMapped, specExhausted]

/-- Claim C6: `match(candidate, pattern)` raises the "exhausted" error
exactly when no branch or arm matches the candidate and no default
(`_` entry or trailing default producer) exists at any enclosing level
— stated over sentinel-clean well-typed patterns, since placing the
sentinel itself in a result position raises "exhausted" by invocation.
Moreover the Wildcard Sentinel raises the exhausted error when called
as a zero-argument function, and `match` installs it as the outermost
default of the dispatch. -/
theorem c6_exhausted_iff (p : TPat) (val : JVal) (env : Env)
    (hclean : cleanB p = true) :
    ((matchJ val p.toJVal env).1 = Except.error MErr.exhausted ↔
      specExhausted val env p false = true) ∧
    callJ0 JVal.wildcard env = (Except.error MErr.exhausted, []) ∧
    matchJ val p.toJVal env
      = matchDispatch val p.toJVal JVal.wildcard env := by
  refine ⟨?_, rfl, rfl⟩
  have hmain := exhausted_aux (sizeOf p) p le_rfl val JVal.wildcard env
    hclean
  simpa [matchJ] using hmain

theorem c6_exhausted_iff_witness :
    cleanB (TPat.chain [] none) = true ∧
    ((matchJ (JVal.prim 0) ((TPat.chain [] none).toJVal)
        (fun _ _ => JVal.undef)).1 = Except.error MErr.exhausted ↔
      specExhausted (JVal.prim 0) (fun _ _ => JVal.undef)
        (TPat.chain [] none) false = true) ∧
    (matchJ (JVal.prim 0) ((TPat.chain [] none).toJVal)
      (fun _ _ => JVal.undef)).1 = Except.error MErr.exhausted := by
  have hc : cleanB (TPat.chain [] none) = true := by simp [cleanB]
  have hiff := (c6_exhausted_iff (TPat.chain [] none) (JVal.prim 0)
    (fun _ _ => JVal.undef) hc).1
  exact ⟨hc, hiff, hiff.mpr (by simp [specExhausted])⟩

/-- The innermost pattern of the depth-generic bubbling scenario: a
keyed pattern declaring only a `Some` arm (a plain function), so a
`None` candidate misses and falls through. -/
def innerSomeOnly (f : Nat) : TPat :=
  TPat.mapped (some (.inl f)) none none none none

/-- Keyed patterns nested along the `Ok` arm, with an optional `_`
default at each level (outermost first). -/
def nestOk : List (Option Nat) → TPat → TPat
  | [], q => q
  | o :: rest, q =>
    TPat.mapped none none (some (.inr (nestOk rest q))) none o

/-- The candidate `Ok(Ok(... v ...))` of the given wrapping depth. -/
def wrapOk : Nat → JVal → JVal
  | 0, v => v
  | n + 1, v => .res true (wrapOk n v)

/-- Resolving the dispatch default along the nesting: each level's own
`_` entry, when present, supersedes the default inherited from the
enclosing levels, so the accumulated value is always the closest
enclosing declared default. -/
def foldDflt (d : JVal) (os : List (Option Nat)) : JVal :=
  os.foldl (fun acc o =>
    match o with | some i => JVal.fn i | none => acc) d

/-- Dispatching the depth-generic scenario against any inherited
default: the innermost miss invokes the closest enclosing `_` entry,
or the inherited default when no level declares one. -/
theorem nestOk_inherited (f : Nat) (env : Env) :
    ∀ (os : List (Option Nat)) (d : JVal),
    matchDispatch (wrapOk os.length (.opt false .undef))
      ((nestOk os (innerSomeOnly f)).toJVal) d env =
      callJ0 (foldDflt d os) env := by
  intro os
  induction os with
  | nil =>
    intro d
    simp [wrapOk, nestOk, innerSomeOnly, TPat.toJVal, matchDispatch,
      matchMapped, armField, fnField, lookupField, mappedFallthrough,
      JVal.isFunctionJ, foldDflt]
  | cons o rest ih =>
    intro d
    simp only [List.length_cons, wrapOk, nestOk, TPat.toJVal,
      matchDispatch, matchMapped, mapped_lookup_Ok, armVal,
      Option.getD_some, toJVal_truthy, toJVal_not_fn,
      Bool.false_eq_true, if_false, if_true]
    rw [mappedInherit_encoded]
    cases o with
    | some i =>
      rw [ih (JVal.fn i)]
      simp [foldDflt]
    | none =>
      rw [ih d]
      simp [foldDflt]

/-- Claim C2: in nested keyed patterns a missing innermost arm falls
back to the closest enclosing `_` default.  First conjunct: at every
nesting depth, with an optional `_` declared per level, the innermost
miss invokes exactly the closest enclosing declared default (and the
outermost sentinel when none is declared anywhere).  Second conjunct:
in a three-level keyed pattern (`Result` of `Result` of `Option`,
innermost `None` arm missing) where only the outermost level declares
`_`, the outer default is invoked and its value returned.  Third
conjunct: if the middle level also declares `_`, that closer default
wins. -/
theorem c2_default_bubbling (f : JVal) (fi d d2 : Nat) (env : Env) :
    (∀ os : List (Option Nat),
      matchJ (wrapOk os.length (.opt false .undef))
        ((nestOk os (innerSomeOnly fi)).toJVal) env =
        callJ0 (foldDflt .wildcard os) env) ∧
    matchJ (.res true (.res true (.opt false .undef)))
      (.obj [("Ok", .obj [("Ok", .obj [("Some", f)])]), ("_", .fn d)])
      env = (.ok (env d .undef), [d]) ∧
    matchJ (.res true (.res true (.opt false .undef)))
      (.obj [("Ok", .obj [("Ok", .obj [("Some", f)]), ("_", .fn d2)]),
        ("_", .fn d)]) env = (.ok (env d2 .undef), [d2]) := by
  refine ⟨fun os => nestOk_inherited fi env os JVal.wildcard, ?_, ?_⟩ <;>
    simp [matchJ, matchDispatch, matchMapped, mappedInherit,
      mappedFallthrough, lookupField, callJ0, callJ1, JVal.isFunctionJ,
      JVal.truthy]

end Oxide
